import Mathlib

/-
Verification of the weekend shift scheduler (weekend-cp-solver.py).
The script is embedded shallowly: column classification, the structural
ordering check, availability collection, the CP-SAT constraint set (as an
explicit list of linear constraints over boolean (participant, slot)
variables), the decoding of solved values, and the top-level script body
with its exception handling.  The external CP solver is not modelled;
an accepted (OPTIMAL or FEASIBLE) solution is any boolean assignment that
satisfies every constraint of the built model, and the solver status is an
input of the embedded script body.
-/

namespace WeekendSolver

/-- Source constant DUMMY_EMAIL: the synthetic filler participant. -/
def DUMMY_EMAIL : String := "?@datastax.com"

/-- Kind of a header column, per the classification in count_shift_types:
the if/elif chain tests the substrings Weekend, then Special, then Holiday. -/
inductive ColKind
  | weekend
  | special
  | holiday
  | other
deriving DecidableEq

/-- Whether pat is a leading piece of cs (Python substring search helper). -/
def leadsChars : List Char → List Char → Bool
  | [], _ => true
  | _ :: _, [] => false
  | p :: ps, c :: cs => p == c && leadsChars ps cs

/-- Whether pat occurs contiguously inside cs (Python `pat in s`). -/
def occursIn (pat : List Char) : List Char → Bool
  | [] => leadsChars pat []
  | c :: cs => leadsChars pat (c :: cs) || occursIn pat cs

/-- Python `key in column_name` on strings. -/
def containsKeyword (key s : String) : Bool := occursIn key.toList s.toList

/-- Classification of one column name, following the source's elif order. -/
def colKind (name : String) : ColKind :=
  if containsKeyword "Weekend" name then .weekend
  else if containsKeyword "Special" name then .special
  else if containsKeyword "Holiday" name then .holiday
  else .other

/-- Loop state of count_shift_types: counts, last weekend index (initially -1),
and the first holiday / special indices, both initialised to 0 and only
written while they still equal 0 (the source's sentinel convention). -/
structure CountState where
  weekendCount : Nat
  holidayCount : Nat
  specialHolidayCount : Nat
  lastWeekendIndex : Int
  firstHolidayIndex : Nat
  firstSpecialIndex : Nat
deriving DecidableEq

def initCountState : CountState :=
  { weekendCount := 0, holidayCount := 0, specialHolidayCount := 0,
    lastWeekendIndex := -1, firstHolidayIndex := 0, firstSpecialIndex := 0 }

/-- The enumerate loop of count_shift_types; i is the index of the head column. -/
def countGo : Nat → List String → CountState → CountState
  | _, [], st => st
  | i, name :: rest, st =>
    let st' :=
      match colKind name with
      | .weekend =>
          { st with weekendCount := st.weekendCount + 1, lastWeekendIndex := (i : Int) }
      | .special =>
          { st with specialHolidayCount := st.specialHolidayCount + 1,
                    firstSpecialIndex :=
                      if st.firstSpecialIndex == 0 then i else st.firstSpecialIndex }
      | .holiday =>
          { st with holidayCount := st.holidayCount + 1,
                    firstHolidayIndex :=
                      if st.firstHolidayIndex == 0 then i else st.firstHolidayIndex }
      | .other => st
    countGo (i + 1) rest st'

/-- count_shift_types: counts the three column kinds over the whole header and
raises a ValueError when the recorded first holiday (or special) index is
smaller than the recorded last weekend index. -/
def countShiftTypes (header : List String) : Except String (Nat × Nat × Nat) :=
  let st := countGo 0 header initCountState
  if st.holidayCount > 0 ∧ (st.firstHolidayIndex : Int) < st.lastWeekendIndex then
    .error "Error: There are 'Holiday' columns before 'Weekend' columns."
  else if st.specialHolidayCount > 0 ∧ (st.firstSpecialIndex : Int) < st.lastWeekendIndex then
    .error "Error: There are 'Special' columns before 'Weekend' columns."
  else
    .ok (st.weekendCount, st.holidayCount, st.specialHolidayCount)

/-- all_shifts as computed by the script body:
weekend_count + holiday_count * 2 + special_holiday_count * 2. -/
def allShiftsOf (W H S : Nat) : Nat := W + H * 2 + S * 2

/-- Sum of required occupancy over the header's slot columns: 1 per
Weekend-kind column, 2 per Holiday-kind and per Special-kind column. -/
def totalOccupancy (header : List String) : Nat :=
  (header.map (fun name =>
    match colKind name with
    | .weekend => 1
    | .special => 2
    | .holiday => 2
    | .other => 0)).sum

/-- An availability or preference table: Python dict email -> list of slots,
as an insertion-ordered association list. -/
abbrev AvMap := List (String × List Nat)

/-- dict.setdefault(k, []).append(v): append v to k's list in place, adding
the key at the end when absent. -/
def dictAppend (d : AvMap) (k : String) (v : Nat) : AvMap :=
  match d with
  | [] => [(k, [v])]
  | (k', vs) :: rest =>
      if k' == k then (k', vs ++ [v]) :: rest else (k', vs) :: dictAppend rest k v

/-- dict.get(k, []). -/
def lookupD (d : AvMap) (k : String) : List Nat :=
  match d with
  | [] => []
  | (k', vs) :: rest => if k' == k then vs else lookupD rest k

/-- Inner loop of collect_availability over one row: k ranges over the slot
offsets (column - 2); the cell row[k+2] is matched against Meh / Preferred. -/
def processCells (email : String) (row : List String) :
    List Nat → AvMap × AvMap → Except String (AvMap × AvMap)
  | [], m => .ok m
  | k :: rest, m =>
    match row.get? (k + 2) with
    | none => .error "IndexError: list index out of range"
    | some cell =>
        if cell == "Meh" then
          processCells email row rest (dictAppend m.1 email k, m.2)
        else if cell == "Preferred" then
          processCells email row rest (dictAppend m.1 email k, dictAppend m.2 email k)
        else
          processCells email row rest m

/-- One iteration of collect_availability's row loop: email is row[1]. -/
def processRow (header : List String) (m : AvMap × AvMap) (row : List String) :
    Except String (AvMap × AvMap) :=
  match row.get? 1 with
  | none => .error "IndexError: list index out of range"
  | some email => processCells email row (List.range (header.length - 2)) m

/-- The row loop of collect_availability. -/
def foldRows (header : List String) (m : AvMap × AvMap) :
    List (List String) → Except String (AvMap × AvMap)
  | [] => .ok m
  | row :: rest =>
    match processRow header m row with
    | .error e => .error e
    | .ok m' => foldRows header m' rest

/-- The dummy loop of collect_availability: append every slot offset
0 .. header.length - 3 to the dummy's availability list. -/
def addDummy (n : Nat) (av : AvMap) : AvMap :=
  (List.range n).foldl (fun d k => dictAppend d DUMMY_EMAIL k) av

/-- collect_availability(rows, should_add_dummy_entries). -/
def collectAvailability (header : List String) (rows : List (List String))
    (shouldAddDummy : Bool) : Except String (AvMap × AvMap) :=
  match foldRows header ([], []) rows with
  | .error e => .error e
  | .ok m => if shouldAddDummy then .ok (addDummy (header.length - 2) m.1, m.2) else .ok m

/-- One entry of SPECIAL_CIRCUMSTANCES_BY_EMAIL: an optional explicit shift
count and the truthiness of constraints.override_back_to_back. -/
structure SpecialCirc where
  shifts : Option Nat
  overrideBackToBack : Bool
deriving DecidableEq

/-- Lookup in the SPECIAL_CIRCUMSTANCES_BY_EMAIL table (a run configuration;
empty in the committed source). -/
def lookupSC (sc : List (String × SpecialCirc)) (e : String) : Option SpecialCirc :=
  match sc with
  | [] => none
  | (k, c) :: rest => if k == e then some c else lookupSC rest e

/-- Comparison operator of a model constraint. -/
inductive Cmp
  | eq
  | le
deriving DecidableEq

/-- One linear constraint of the CP model: the listed boolean variables
(participant, slot index) summed, compared with bound. -/
structure LinCon where
  vars : List (String × Nat)
  cmp : Cmp
  bound : Nat
deriving DecidableEq

/-- Python range(0, n, 2). -/
def rangeStep2 (n : Nat) : List Nat := (List.range ((n + 1) / 2)).map (fun k => 2 * k)

/-- The coverage constraints: each weekend slot index 0..W-1 sums to exactly 1
across all participants, each holiday slot index W..W+H-1 and each special
slot index W+H..W+H+S-1 sums to exactly 2. -/
def coverageCons (keys : List String) (W H S : Nat) : List LinCon :=
  (List.range W).map (fun slot => ⟨keys.map (fun e => (e, slot)), Cmp.eq, 1⟩)
  ++ (if 0 < H then
        (List.range H).map (fun k => ⟨keys.map (fun e => (e, W + k)), Cmp.eq, 2⟩)
      else [])
  ++ (if 0 < S then
        (List.range S).map (fun k => ⟨keys.map (fun e => (e, W + H + k)), Cmp.eq, 2⟩)
      else [])

/-- The per-participant shift total required by the load constraint:
an override's explicit value when present (defaulting to the computed
maximum), else the computed maximum, else the leftover for the dummy. -/
def targetOf (sc : List (String × SpecialCirc)) (maxShifts maxDummy : Nat)
    (e : String) : Nat :=
  match lookupSC sc e with
  | some c => c.shifts.getD maxShifts
  | none => if e == DUMMY_EMAIL then maxDummy else maxShifts

/-- The load constraints: for every participant, the sum of all of their
variables (slot indices 0..allShifts-1) equals their target. -/
def loadCons (keys : List String) (sc : List (String × SpecialCirc))
    (maxShifts maxDummy allShifts : Nat) : List LinCon :=
  keys.map (fun e =>
    ⟨(List.range allShifts).map (fun i => (e, i)), Cmp.eq, targetOf sc maxShifts maxDummy e⟩)

/-- The 8-variable weekend anti-clustering window starting at slot s with
mirror offset half = W / 2. -/
def weekendWindowCon (e : String) (half s : Nat) : LinCon :=
  ⟨[(e, s), (e, s + 1), (e, s + 2), (e, s + 3),
    (e, s + half), (e, s + half + 1), (e, s + half + 2), (e, s + half + 3)], Cmp.le, 1⟩

/-- The relaxed 4-variable weekend window used under override_back_to_back. -/
def weekendWindowConB2b (e : String) (half s : Nat) : LinCon :=
  ⟨[(e, s), (e, s + 1), (e, s + half), (e, s + half + 1)], Cmp.le, 1⟩

/-- Truthiness of constraints.override_back_to_back for one participant. -/
def b2bOf (scE : Option SpecialCirc) : Bool :=
  match scE with
  | some c => c.overrideBackToBack
  | none => false

/-- Python range(W, W + H, 2). -/
def holidayStarts (W H : Nat) : List Nat :=
  (List.range ((H + 1) / 2)).map (fun k => W + 2 * k)

/-- The spacing and pairing constraints added for one non-dummy participant:
the guarded weekend windows (8-variable, or 4-variable under the
back-to-back override), the holiday day pairings, and the special pairings. -/
def spacingForEmail (e : String) (scE : Option SpecialCirc) (W H S : Nat) : List LinCon :=
  (if b2bOf scE then
     (rangeStep2 (W / 2)).filterMap (fun s =>
       if s + W / 2 + 3 < W then some (weekendWindowConB2b e (W / 2) s) else none)
   else
     (rangeStep2 (W / 2)).filterMap (fun s =>
       if s + W / 2 + 3 < W then some (weekendWindowCon e (W / 2) s) else none))
  ++ (if 0 < H then
        (holidayStarts W H).map (fun s =>
          ⟨[(e, s), (e, s + 1), (e, s + H), (e, s + H + 1)], Cmp.le, 1⟩)
      else [])
  ++ (if 0 < S then
        (List.range S).map (fun k =>
          ⟨[(e, W + H + k), (e, W + H + k + S)], Cmp.le, 1⟩)
      else [])

/-- The full constraint list built by add_constraints, in source order:
coverage, loads, then per-participant (dummy excepted) spacing/pairing. -/
def buildCons (keys : List String) (sc : List (String × SpecialCirc))
    (maxShifts W H S maxDummy allShifts : Nat) : List LinCon :=
  coverageCons keys W H S
  ++ loadCons keys sc maxShifts maxDummy allShifts
  ++ (keys.filter (fun e => e != DUMMY_EMAIL)).flatMap
       (fun e => spacingForEmail e (lookupSC sc e) W H S)

/-- add_constraints: building the model subscripts slots[email][i] for every
referenced index i, so a referenced index at or beyond all_shifts raises an
IndexError; otherwise the constraint list is registered. -/
def addConstraints (keys : List String) (sc : List (String × SpecialCirc))
    (maxShifts W H S maxDummy allShifts : Nat) : Except String (List LinCon) :=
  let cons := buildCons keys sc maxShifts W H S maxDummy allShifts
  if cons.all (fun c => c.vars.all (fun v => decide (v.2 < allShifts))) then .ok cons
  else .error "IndexError: list index out of range"

/-- Value of a summed variable list under a boolean assignment. -/
def conSum (asg : String → Nat → Bool) (vs : List (String × Nat)) : Nat :=
  (vs.map (fun v => if asg v.1 v.2 then 1 else 0)).sum

/-- Whether one constraint holds under an assignment. -/
def satCon (asg : String → Nat → Bool) (c : LinCon) : Bool :=
  match c.cmp with
  | .eq => conSum asg c.vars == c.bound
  | .le => decide (conSum asg c.vars ≤ c.bound)

/-- Whether an assignment satisfies every constraint of the model; this is
what the solver guarantees of any OPTIMAL or FEASIBLE solution. -/
def satisfiesAll (asg : String → Nat → Bool) (cons : List LinCon) : Bool :=
  cons.all (satCon asg)

/-- The number of participants assigned to one slot. -/
def assignedCount (asg : String → Nat → Bool) (keys : List String) (slot : Nat) : Nat :=
  (keys.filter (fun e => asg e slot)).length

/-- The number of variables of one participant solved true. -/
def loadCount (asg : String → Nat → Bool) (e : String) (allShifts : Nat) : Nat :=
  ((List.range allShifts).filter (fun i => asg e i)).length

/-- Required occupancy of a slot index: 1 below W (Weekend kind), else 2
(Holiday and Special kinds). -/
def requiredOccupancy (W slot : Nat) : Nat := if slot < W then 1 else 2

/-- The variable set created by setup_model: one boolean per email key of the
availability dict and per slot index in range(all_shifts). -/
def modelVars (avail : AvMap) (allShifts : Nat) : List (String × Nat) :=
  avail.flatMap (fun p => (List.range allShifts).map (fun i => (p.1, i)))

/-- Python str.split(sep) for a one-character separator, over char lists. -/
def splitChar (sep : Char) : List Char → List (List Char)
  | [] => [[]]
  | c :: rest =>
    let r := splitChar sep rest
    if c == sep then [] :: r
    else
      match r with
      | [] => [[c]]
      | g :: gs => (c :: g) :: gs

/-- Email truncation of the decode loop:
name_parts = email.split('@')[0].split('.'); the result is
name_parts[0] + '.' + name_parts[-1][0], an IndexError when the last name
part is empty. -/
def truncateEmail (email : String) : Except String String :=
  let nameParts := splitChar '.' ((splitChar '@' email.toList).headD [])
  match nameParts.getLastD [] with
  | [] => .error "IndexError: string index out of range"
  | c :: _ => .ok (String.mk ((nameParts.headD []) ++ ['.', c]))

/-- The per-participant decode: keep the slots of the availability list whose
variable solved true, tagged P when preferred else A; reading a variable
is a subscript of slots[email], an IndexError at or beyond all_shifts. -/
def assignedFor (email : String) (prefList : List Nat) (values : String → Nat → Bool)
    (allShifts : Nat) : List Nat → Except String (List (Nat × Char))
  | [] => .ok []
  | slot :: rest =>
    if slot < allShifts then
      match assignedFor email prefList values allShifts rest with
      | .error e => .error e
      | .ok r =>
          .ok (if values email slot then
                 (slot, if prefList.contains slot then 'P' else 'A') :: r
               else r)
    else .error "IndexError: list index out of range"

/-- Python dict store d[k] = v: overwrite in place, or add the key at the end. -/
def dictSet (d : List (String × List (Nat × Char))) (k : String) (v : List (Nat × Char)) :
    List (String × List (Nat × Char)) :=
  match d with
  | [] => [(k, v)]
  | (k', v') :: rest => if k' == k then (k', v) :: rest else (k', v') :: dictSet rest k v

/-- The decode loop over the availability dict, accumulating the dict of
truncated emails to assigned slots. -/
def decodeGo (prefs : AvMap) (values : String → Nat → Bool) (allShifts : Nat)
    (acc : List (String × List (Nat × Char))) :
    AvMap → Except String (List (String × List (Nat × Char)))
  | [] => .ok acc
  | (email, slotsList) :: rest =>
    match assignedFor email (lookupD prefs email) values allShifts slotsList with
    | .error e => .error e
    | .ok assigned =>
        match truncateEmail email with
        | .error e => .error e
        | .ok t => decodeGo prefs values allShifts (dictSet acc t assigned) rest

/-- The whole decode pass of the script body's success branch. -/
def decodeAssignments (prefs : AvMap) (values : String → Nat → Bool) (allShifts : Nat)
    (avail : AvMap) : Except String (List (String × List (Nat × Char))) :=
  decodeGo prefs values allShifts [] avail

/-- The date-label extraction column.split('[')[1] performed while printing:
an IndexError when the column name holds no opening bracket. -/
def labelCheck (s : String) : Except String Unit :=
  match (splitChar '[' s.toList).get? 1 with
  | some _ => .ok ()
  | none => .error "IndexError: list index out of range"

/-- Run a failing-capable check over a list of indices. -/
def checkList (f : Nat → Except String Unit) : List Nat → Except String Unit
  | [] => .ok ()
  | i :: rest =>
    match f i with
    | .error e => .error e
    | .ok _ => checkList f rest

/-- The failure-relevant part of print_shift_assignments: the column-name
subscripts and date-label splits performed while building the three table
sections (the tabulate rendering itself cannot raise). -/
def printChecks (csvCols : List String) (W H S : Nat) : Except String Unit :=
  let colCheck := fun (i : Nat) =>
    match csvCols.get? i with
    | none => Except.error "IndexError: list index out of range"
    | some c => labelCheck c
  match (if 0 < W then
           checkList (fun i =>
             match colCheck i with
             | .error e => .error e
             | .ok _ => colCheck (i + 1)) (rangeStep2 (W / 2))
         else .ok ()) with
  | .error e => .error e
  | .ok _ =>
    match (if 0 < H then
             checkList (fun k => colCheck (W + k)) (List.range (H / 2))
           else .ok ()) with
    | .error e => .error e
    | .ok _ =>
      if 0 < S then checkList (fun k => colCheck (W + H + k)) (List.range S)
      else .ok ()

/-- The solver statuses of the CP-SAT wrapper. -/
inductive SolveStatus
  | OPTIMAL
  | FEASIBLE
  | INFEASIBLE
  | MODEL_INVALID
  | UNKNOWN
deriving DecidableEq

/-- The input of one run: whether the path names an existing file, the CSV
header row, and the data rows. -/
structure ScriptInput where
  fileExists : Bool
  header : List String
  rows : List (List String)

/-- validate_file_path: FileNotFoundError when the path is not a file. -/
def validateFilePath (ok : Bool) : Except String Unit :=
  if ok then .ok ()
  else .error "Error: The file does not exist or is not a file."

/-- The success branch of the script body: decode the solved values, then
print the three table sections. -/
def decodeAndPrint (csvCols : List String) (avail prefs : AvMap)
    (values : String → Nat → Bool) (allShifts W H S : Nat) :
    Except String (List String) :=
  match decodeAssignments prefs values allShifts avail with
  | .error e => .error e
  | .ok _decoded =>
    match printChecks csvCols W H S with
    | .error e => .error e
    | .ok _ => .ok []

/-- The try-block of the script body: validation, header classification,
capacity arithmetic, availability collection, model construction, then the
status dispatch.  The solver itself is external: its status and variable
values are inputs. -/
def mainBody (inp : ScriptInput) (sc : List (String × SpecialCirc))
    (status : SolveStatus) (values : String → Nat → Bool) :
    Except String (List String) :=
  match validateFilePath inp.fileExists with
  | .error e => .error e
  | .ok _ =>
  match countShiftTypes inp.header with
  | .error e => .error e
  | .ok (W, H, S) =>
    let allShifts := allShiftsOf W H S
    match inp.rows.length with
    | 0 => .error "ZeroDivisionError: division by zero"
    | Nat.succ m =>
      let n := m + 1
      let maxShifts := allShifts / n
      let emptyCount := allShifts % n
      match collectAvailability inp.header inp.rows (emptyCount != 0) with
      | .error e => .error e
      | .ok (av, pf) =>
        match addConstraints (av.map Prod.fst) sc maxShifts W H S emptyCount allShifts with
        | .error e => .error e
        | .ok _cons =>
          match status with
          | .OPTIMAL => decodeAndPrint (inp.header.drop 2) av pf values allShifts W H S
          | .FEASIBLE => decodeAndPrint (inp.header.drop 2) av pf values allShifts W H S
          | _ => .ok ["No solution found"]

/-- The whole script: the try/except wrapper around the body.  Any exception
is caught, reported, and turned into exit code 1; otherwise the process
ends with exit code 0.  The result is (exit code, printed outcome lines). -/
def runScript (inp : ScriptInput) (sc : List (String × SpecialCirc))
    (status : SolveStatus) (values : String → Nat → Bool) : Nat × List String :=
  match mainBody inp sc status values with
  | .ok msgs => (0, msgs)
  | .error e => (1, ["An error occurred while processing the file: " ++ e])

/-! ### Concrete instances used by counterexamples and witnesses -/

/-- A 4-weekend-column header (columns 0 and 1 reserved). -/
def hdrD : List String :=
  ["T", "E", "Weekend[a ", "Weekend[b ", "Weekend[c ", "Weekend[d "]

/-- Two sign-up rows: a@x.com is available for slot 0 only, b@x.com for all. -/
def rowsD : List (List String) :=
  [["t", "a@x.com", "Meh", "", "", ""],
   ["t", "b@x.com", "Meh", "Meh", "Meh", "Meh"]]

/-- The participant keys collected from rowsD. -/
def keysD : List String := ["a@x.com", "b@x.com"]

/-- A boolean assignment over the rowsD model: a takes slots 0 and 1,
b takes slots 2 and 3. -/
def asgD : String → Nat → Bool := fun e i =>
  (e == "a@x.com" && (i == 0 || i == 1)) || (e == "b@x.com" && (i == 2 || i == 3))

/-- Participants of the phantom-slot instance: three people and the dummy. -/
def keys9 : List String := ["a@x.com", "b@x.com", "c@x.com", DUMMY_EMAIL]

/-- Override table raising a@x.com's shift count to 2. -/
def sc9 : List (String × SpecialCirc) := [("a@x.com", SpecialCirc.mk (some 2) false)]

/-- Assignment over the two-special-column model (real slots 0 and 1, phantom
indices 2 and 3): a takes slot 0 and phantom slot 3. -/
def asg9 : String → Nat → Bool := fun e i =>
  (e == "a@x.com" && (i == 0 || i == 3)) || (e == "b@x.com" && i == 0)
  || (e == "c@x.com" && i == 1) || (e == DUMMY_EMAIL && i == 1)

/-- Eight distinct participants for an 8-weekend-slot model. -/
def keys8 : List String :=
  ["a1@x.com", "a2@x.com", "a3@x.com", "a4@x.com",
   "a5@x.com", "a6@x.com", "a7@x.com", "a8@x.com"]

/-- The assignment giving slot i to the i-th participant of keys8. -/
def asg8 : String → Nat → Bool := fun e i => (keys8.getD i "") == e

/-! ### Shared lemmas about the constraint model -/

/-- An assignment satisfying the whole model satisfies each member constraint. -/
theorem sat_of_mem {asg : String → Nat → Bool} {cons : List LinCon} {c : LinCon}
    (hs : satisfiesAll asg cons = true) (hc : c ∈ cons) : satCon asg c = true := by
  simp only [satisfiesAll, List.all_eq_true] at hs
  exact hs c hc

/-- The summed value of mapped variables is the count of satisfied sources. -/
theorem conSum_eq_count {α : Type} (asg : String → Nat → Bool) (f : α → String × Nat)
    (l : List α) :
    conSum asg (l.map f) = (l.filter (fun a => asg (f a).1 (f a).2)).length := by
  induction l with
  | nil => rfl
  | cons a l ih =>
    simp only [List.map_cons, conSum, List.sum_cons, List.filter_cons] at *
    by_cases h : asg (f a).1 (f a).2 = true
    · simp [h, ← ih, Nat.add_comm]
    · simp [h, ← ih]

/-- Membership in Python range(0, n, 2). -/
theorem mem_rangeStep2 {s n : Nat} : s ∈ rangeStep2 n ↔ s % 2 = 0 ∧ s < n := by
  simp only [rangeStep2, List.mem_map, List.mem_range]
  constructor
  · rintro ⟨k, hk, rfl⟩
    omega
  · rintro ⟨h2, hn⟩
    exact ⟨s / 2, by omega, by omega⟩

/-- A successful add_constraints registers exactly the built constraint list. -/
theorem addConstraints_ok {keys : List String} {sc : List (String × SpecialCirc)}
    {maxShifts W H S maxDummy allShifts : Nat} {cons : List LinCon}
    (h : addConstraints keys sc maxShifts W H S maxDummy allShifts = .ok cons) :
    cons = buildCons keys sc maxShifts W H S maxDummy allShifts := by
  simp only [addConstraints] at h
  split at h
  · exact (Except.ok.inj h).symm
  · cases h

/-- The coverage constraint of each real slot index is part of the model. -/
theorem coverage_mem (keys : List String) (W H S slot : Nat) (h : slot < W + H + S) :
    (⟨keys.map (fun e => (e, slot)), Cmp.eq, requiredOccupancy W slot⟩ : LinCon)
      ∈ coverageCons keys W H S := by
  simp only [coverageCons, List.mem_append, List.mem_map, List.mem_range]
  rcases Nat.lt_or_ge slot W with h1 | h1
  · have hocc : requiredOccupancy W slot = 1 := by
      unfold requiredOccupancy
      rw [if_pos h1]
    rw [hocc]
    exact Or.inl (Or.inl ⟨slot, h1, rfl⟩)
  · rcases Nat.lt_or_ge slot (W + H) with h2 | h2
    · have hH : 0 < H := by omega
      have hocc : requiredOccupancy W slot = 2 := by
        unfold requiredOccupancy
        rw [if_neg (by omega)]
      obtain ⟨k, rfl⟩ : ∃ k, slot = W + k := ⟨slot - W, by omega⟩
      rw [hocc]
      refine Or.inl (Or.inr ?_)
      simp only [hH, if_true, List.mem_map, List.mem_range]
      exact ⟨k, by omega, rfl⟩
    · have hS : 0 < S := by omega
      have hocc : requiredOccupancy W slot = 2 := by
        unfold requiredOccupancy
        rw [if_neg (by omega)]
      obtain ⟨k, rfl⟩ : ∃ k, slot = W + H + k := ⟨slot - W - H, by omega⟩
      rw [hocc]
      refine Or.inr ?_
      simp only [hS, if_true, List.mem_map, List.mem_range]
      exact ⟨k, by omega, rfl⟩

/-- Parts of the built model, lifted to the full list. -/
theorem mem_buildCons_of_cov {keys : List String} {sc : List (String × SpecialCirc)}
    {maxShifts W H S maxDummy allShifts : Nat} {c : LinCon}
    (h : c ∈ coverageCons keys W H S) :
    c ∈ buildCons keys sc maxShifts W H S maxDummy allShifts := by
  simp [buildCons, List.mem_append, h]

theorem mem_buildCons_of_load {keys : List String} {sc : List (String × SpecialCirc)}
    {maxShifts W H S maxDummy allShifts : Nat} {c : LinCon}
    (h : c ∈ loadCons keys sc maxShifts maxDummy allShifts) :
    c ∈ buildCons keys sc maxShifts W H S maxDummy allShifts := by
  simp [buildCons, List.mem_append, h]

theorem mem_buildCons_of_spacing {keys : List String} {sc : List (String × SpecialCirc)}
    {maxShifts W H S maxDummy allShifts : Nat} {c : LinCon} {e : String}
    (he : e ∈ keys) (hne : e ≠ DUMMY_EMAIL)
    (h : c ∈ spacingForEmail e (lookupSC sc e) W H S) :
    c ∈ buildCons keys sc maxShifts W H S maxDummy allShifts := by
  simp only [buildCons, List.mem_append, List.mem_flatMap, List.mem_filter]
  exact Or.inr ⟨e, ⟨he, by simp [hne]⟩, h⟩

/-! ### C1 -/

/-- C1: In any accepted (OPTIMAL or FEASIBLE) solution — any boolean
assignment satisfying the built model — every real slot index is assigned
exactly its required occupancy of participants: 1 for each Weekend slot
(index below W) and 2 for each Holiday and Special slot. -/
theorem coverage_exact (keys : List String) (sc : List (String × SpecialCirc))
    (maxShifts W H S maxDummy allShifts : Nat) (cons : List LinCon)
    (asg : String → Nat → Bool)
    (hok : addConstraints keys sc maxShifts W H S maxDummy allShifts = .ok cons)
    (hsat : satisfiesAll asg cons = true) :
    ∀ slot, slot < W + H + S → assignedCount asg keys slot = requiredOccupancy W slot := by
  intro slot hslot
  have hc := addConstraints_ok hok
  subst hc
  have hmem := @mem_buildCons_of_cov keys sc maxShifts W H S maxDummy allShifts _
    (coverage_mem keys W H S slot hslot)
  have hs := sat_of_mem hsat hmem
  simp only [satCon, beq_iff_eq] at hs
  rw [conSum_eq_count] at hs
  exact hs

/-- Witness for C1 on the concrete four-weekend-slot model. -/
theorem coverage_exact_witness :
    assignedCount asgD keysD 0 = requiredOccupancy 4 0 :=
  coverage_exact keysD [] 2 4 0 0 0 4 _ asgD rfl (by decide) 0 (by decide)

/-! ### C2 -/

/-- C2: In any accepted solution, each participant's total number of true
variables equals their target exactly: the computed maximum for a non-filler
participant without an override, the override's explicit value when one is
present, and the leftover remainder for the filler. -/
theorem load_exact (keys : List String) (sc : List (String × SpecialCirc))
    (maxShifts W H S maxDummy allShifts : Nat) (cons : List LinCon)
    (asg : String → Nat → Bool) (e : String)
    (hok : addConstraints keys sc maxShifts W H S maxDummy allShifts = .ok cons)
    (hsat : satisfiesAll asg cons = true) (he : e ∈ keys) :
    loadCount asg e allShifts = targetOf sc maxShifts maxDummy e
    ∧ (lookupSC sc e = none → e ≠ DUMMY_EMAIL → loadCount asg e allShifts = maxShifts)
    ∧ (lookupSC sc e = none → e = DUMMY_EMAIL → loadCount asg e allShifts = maxDummy)
    ∧ (∀ c t, lookupSC sc e = some c → c.shifts = some t →
        loadCount asg e allShifts = t) := by
  have hc := addConstraints_ok hok
  subst hc
  have hmem : (⟨(List.range allShifts).map (fun i => (e, i)), Cmp.eq,
      targetOf sc maxShifts maxDummy e⟩ : LinCon)
      ∈ loadCons keys sc maxShifts maxDummy allShifts := by
    simp only [loadCons, List.mem_map]
    exact ⟨e, he, rfl⟩
  have hs := sat_of_mem hsat
    (@mem_buildCons_of_load keys sc maxShifts W H S maxDummy allShifts _ hmem)
  simp only [satCon, beq_iff_eq] at hs
  rw [conSum_eq_count] at hs
  have hmain : loadCount asg e allShifts = targetOf sc maxShifts maxDummy e := hs
  refine ⟨hmain, ?_, ?_, ?_⟩
  · intro hnone hne
    rw [hmain]
    simp [targetOf, hnone, hne]
  · intro hnone hde
    subst hde
    rw [hmain]
    simp [targetOf, hnone]
  · intro c t hsome hshift
    rw [hmain]
    simp [targetOf, hsome, hshift]

/-- Witness for C2 on the concrete four-weekend-slot model. -/
theorem load_exact_witness :
    loadCount asgD "a@x.com" 4 = targetOf [] 2 0 "a@x.com" :=
  (load_exact keysD [] 2 4 0 0 0 4 _ asgD "a@x.com" rfl (by decide) (by decide)).1

/-! ### C4 -/

/-- C4 counterexample: for the availability table in which a@x.com can work
only slot 0 (with all_shifts = 2), the model still holds a variable for
(a@x.com, 1), a slot outside the participant's availability set — refuting
the claim that a non-filler variable exists only for available slots. -/
theorem variable_existence_cx :
    ("a@x.com", 1) ∈ modelVars [("a@x.com", [0])] 2
    ∧ ¬ (1 ∈ lookupD [("a@x.com", [0])] "a@x.com") := by
  constructor
  · simp [modelVars]
  · decide

/-- C4 amended: a boolean variable exists for a pair (participant, slot index)
exactly when the participant appears as a key of the availability dict (has
at least one available slot, or is the added filler) and the slot index is
below all_shifts — availability of that particular slot is not required. -/
theorem variable_existence (avail : AvMap) (allShifts : Nat) (e : String) (i : Nat) :
    (e, i) ∈ modelVars avail allShifts ↔ (e ∈ avail.map Prod.fst ∧ i < allShifts) := by
  simp only [modelVars, List.mem_flatMap, List.mem_map, List.mem_range]
  constructor
  · rintro ⟨p, hp, j, hj, heq⟩
    injection heq with he hi
    subst hi
    exact ⟨⟨p, hp, he⟩, hj⟩
  · rintro ⟨⟨p, hp, rfl⟩, hi⟩
    exact ⟨p, hp, i, hi, rfl⟩

/-! ### C3 -/

/-- C3 counterexample: with 4 weekend slots the guard slot + W/2 + 3 < W never
holds, so no weekend spacing constraint exists at all; the model accepts a
solution in which the non-filler, non-overridden participant a@x.com holds
slots 0 and 1 — two shifts inside the single weekend group 0..3 — refuting
the at-most-one-per-weekend claim. -/
theorem weekend_spacing_cx :
    addConstraints keysD [] 2 4 0 0 0 4 = .ok (buildCons keysD [] 2 4 0 0 0 4)
    ∧ satisfiesAll asgD (buildCons keysD [] 2 4 0 0 0 4) = true
    ∧ lookupSC [] "a@x.com" = none
    ∧ "a@x.com" ≠ DUMMY_EMAIL
    ∧ ([0, 1, 2, 3].filter (fun i => asgD "a@x.com" i)).length = 2 :=
  ⟨rfl, by decide, rfl, by decide, by decide⟩

/-- C3 amended: the 8-variable weekend window holds only for the aligned
starts the source guards: for every even s below W/2 with s + W/2 + 3 < W,
a non-filler participant without the back-to-back override has at most one
true variable among the 8 window slots; windows failing the guard (all of
them when W < 8, and the trailing windows otherwise) are unconstrained. -/
theorem weekend_spacing_guarded (keys : List String) (sc : List (String × SpecialCirc))
    (maxShifts W H S maxDummy allShifts : Nat) (cons : List LinCon)
    (asg : String → Nat → Bool) (e : String) (s : Nat)
    (hok : addConstraints keys sc maxShifts W H S maxDummy allShifts = .ok cons)
    (hsat : satisfiesAll asg cons = true)
    (he : e ∈ keys) (hne : e ≠ DUMMY_EMAIL)
    (hb2b : b2bOf (lookupSC sc e) = false)
    (h2 : s % 2 = 0) (hhalf : s < W / 2) (hguard : s + W / 2 + 3 < W) :
    ([s, s + 1, s + 2, s + 3, s + W / 2, s + W / 2 + 1, s + W / 2 + 2,
      s + W / 2 + 3].filter (fun i => asg e i)).length ≤ 1 := by
  have hc := addConstraints_ok hok
  subst hc
  have hmem : weekendWindowCon e (W / 2) s ∈ spacingForEmail e (lookupSC sc e) W H S := by
    simp only [spacingForEmail, hb2b, if_false, List.mem_append, List.mem_filterMap,
      Bool.false_eq_true]
    exact Or.inl (Or.inl ⟨s, mem_rangeStep2.mpr ⟨h2, hhalf⟩, by rw [if_pos hguard]⟩)
  have hs : conSum asg (([s, s + 1, s + 2, s + 3, s + W / 2, s + W / 2 + 1,
      s + W / 2 + 2, s + W / 2 + 3]).map (fun i => (e, i))) ≤ 1 := by
    have hsc := sat_of_mem hsat (mem_buildCons_of_spacing he hne hmem)
    simpa [satCon, weekendWindowCon] using hsc
  rw [conSum_eq_count] at hs
  exact hs

/-- Witness for the amended C3 on an 8-weekend-slot model with 8 participants,
where the single guarded window (start 0) exists. -/
theorem weekend_spacing_guarded_witness :
    ([0, 0 + 1, 0 + 2, 0 + 3, 0 + 8 / 2, 0 + 8 / 2 + 1, 0 + 8 / 2 + 2,
      0 + 8 / 2 + 3].filter (fun i => asg8 "a1@x.com" i)).length ≤ 1 :=
  weekend_spacing_guarded keys8 [] 1 8 0 0 0 8 _ asg8 "a1@x.com" 0 rfl (by decide)
    (by decide) (by decide) rfl rfl (by decide) (by decide)

/-! ### C10 -/

/-- Every entry the per-participant decode emits names a slot of the iterated
availability list whose variable solved true. -/
theorem assignedFor_sound (email : String) (prefList : List Nat)
    (values : String → Nat → Bool) (allShifts : Nat) :
    ∀ slotsList out, assignedFor email prefList values allShifts slotsList = .ok out →
      ∀ q ∈ out, q.1 ∈ slotsList ∧ values email q.1 = true := by
  intro slotsList
  induction slotsList with
  | nil =>
    intro out h q hq
    simp only [assignedFor] at h
    injection h with h2
    subst h2
    cases hq
  | cons slot rest ih =>
    intro out h q hq
    simp only [assignedFor] at h
    by_cases hlt : slot < allShifts
    · rw [if_pos hlt] at h
      cases hrec : assignedFor email prefList values allShifts rest with
      | error e' =>
        rw [hrec] at h
        exact Except.noConfusion h
      | ok r =>
        rw [hrec] at h
        injection h with h2
        subst h2
        have hrest := ih r hrec
        by_cases hv : values email slot = true
        · rw [if_pos hv] at hq
          rcases List.mem_cons.mp hq with rfl | hq'
          · exact ⟨List.mem_cons_self _ _, hv⟩
          · obtain ⟨ha, hb⟩ := hrest q hq'
            exact ⟨List.mem_cons_of_mem _ ha, hb⟩
        · rw [if_neg hv] at hq
          obtain ⟨ha, hb⟩ := hrest q hq
          exact ⟨List.mem_cons_of_mem _ ha, hb⟩
    · rw [if_neg hlt] at h
      exact Except.noConfusion h

/-- A dict store adds the stored pair or keeps an existing entry. -/
theorem mem_dictSet : ∀ (d : List (String × List (Nat × Char))) (k : String)
    (v : List (Nat × Char)) (p : String × List (Nat × Char)),
    p ∈ dictSet d k v → p = (k, v) ∨ p ∈ d := by
  intro d k v
  induction d with
  | nil =>
    intro p hp
    simp only [dictSet] at hp
    rcases List.mem_cons.mp hp with rfl | hp'
    · exact Or.inl rfl
    · cases hp'
  | cons hd tl ih =>
    intro p hp
    obtain ⟨k', v'⟩ := hd
    simp only [dictSet] at hp
    by_cases hk : (k' == k) = true
    · rw [if_pos hk] at hp
      rcases List.mem_cons.mp hp with rfl | hp'
      · left
        rw [eq_of_beq hk]
      · right
        exact List.mem_cons_of_mem _ hp'
    · rw [if_neg hk] at hp
      rcases List.mem_cons.mp hp with rfl | hp'
      · right
        exact List.mem_cons_self _ _
      · rcases ih p hp' with h | h
        · exact Or.inl h
        · exact Or.inr (List.mem_cons_of_mem _ h)

/-- Invariant of the decode loop: every emitted dict entry originates in some
availability entry and lists only its available, solved-true slots. -/
theorem decodeGo_sound (prefs : AvMap) (values : String → Nat → Bool)
    (allShifts : Nat) (avail₀ : AvMap) :
    ∀ rest acc out, (∀ p ∈ rest, p ∈ avail₀) →
      (∀ tl ∈ acc, ∃ e sl, (e, sl) ∈ avail₀ ∧
        ∀ q ∈ tl.2, q.1 ∈ sl ∧ values e q.1 = true) →
      decodeGo prefs values allShifts acc rest = .ok out →
      ∀ tl ∈ out, ∃ e sl, (e, sl) ∈ avail₀ ∧
        ∀ q ∈ tl.2, q.1 ∈ sl ∧ values e q.1 = true := by
  intro rest
  induction rest with
  | nil =>
    intro acc out hsub hacc h
    simp only [decodeGo] at h
    injection h with h2
    subst h2
    exact hacc
  | cons p rest ih =>
    intro acc out hsub hacc h
    obtain ⟨email, slotsList⟩ := p
    simp only [decodeGo] at h
    cases ha : assignedFor email (lookupD prefs email) values allShifts slotsList with
    | error e' =>
      rw [ha] at h
      exact Except.noConfusion h
    | ok assigned =>
      rw [ha] at h
      cases ht : truncateEmail email with
      | error e' =>
        rw [ht] at h
        exact Except.noConfusion h
      | ok t =>
        rw [ht] at h
        refine ih (dictSet acc t assigned) out
          (fun p hp => hsub p (List.mem_cons_of_mem _ hp)) ?_ h
        intro tl htl
        rcases mem_dictSet _ _ _ _ htl with rfl | hmem
        · exact ⟨email, slotsList, hsub _ (List.mem_cons_self _ _),
            fun q hq => assignedFor_sound email (lookupD prefs email) values
              allShifts slotsList assigned ha q hq⟩
        · exact hacc _ hmem

/-- C10: the decoded output lists a (participant, slot) assignment only when
the slot is in that participant's availability list (and its variable solved
true); a variable solved true outside the availability list is silently
omitted, so the emitted assignments respect the availability invariant even
when the underlying assignment does not. -/
theorem decoded_within_availability (prefs : AvMap) (values : String → Nat → Bool)
    (allShifts : Nat) (avail : AvMap) (out : List (String × List (Nat × Char)))
    (h : decodeAssignments prefs values allShifts avail = .ok out) :
    ∀ tl ∈ out, ∃ email slotsList, (email, slotsList) ∈ avail ∧
      ∀ q ∈ tl.2, q.1 ∈ slotsList ∧ values email q.1 = true :=
  decodeGo_sound prefs values allShifts avail avail [] out (fun _ hp => hp)
    (by intro tl htl; exact absurd htl (List.not_mem_nil _)) h

/-- The solved values used by the decode witness: true on slots 0 and 2 only. -/
def valuesW : String → Nat → Bool := fun _ i => i == 0 || i == 2

/-- Witness for C10 on a concrete decode of one participant. -/
theorem decoded_within_availability_witness :
    ∃ email slotsList, (email, slotsList) ∈ [("a.b@x.com", [0, 2])] ∧
      ∀ q ∈ [((0 : Nat), 'P'), ((2 : Nat), 'A')],
        q.1 ∈ slotsList ∧ valuesW email q.1 = true :=
  decoded_within_availability [("a.b@x.com", [0])] valuesW 3
    [("a.b@x.com", [0, 2])] [("a.b", [(0, 'P'), (2, 'A')])] rfl
    ("a.b", [(0, 'P'), (2, 'A')]) (by decide)

/-! ### C5 -/

/-- C5 counterexample: the Scenario-D premises hold for hdrD/rowsD — a@x.com
is available for exactly one slot while the computed target is 2 — yet the
built model is satisfied by asgD, so it is not INFEASIBLE. -/
theorem scenarioD_cx :
    countShiftTypes hdrD = .ok (4, 0, 0)
    ∧ rowsD.length = 2
    ∧ allShiftsOf 4 0 0 / rowsD.length = 2
    ∧ collectAvailability hdrD rowsD (allShiftsOf 4 0 0 % rowsD.length != 0) =
        .ok ([("a@x.com", [0]), ("b@x.com", [0, 1, 2, 3])], [])
    ∧ lookupD [("a@x.com", [0]), ("b@x.com", [0, 1, 2, 3])] "a@x.com" = [0]
    ∧ addConstraints keysD [] 2 4 0 0 0 4 = .ok (buildCons keysD [] 2 4 0 0 0 4)
    ∧ satisfiesAll asgD (buildCons keysD [] 2 4 0 0 0 4) = true :=
  ⟨rfl, rfl, rfl, rfl, rfl, rfl, by decide⟩

/-- C5 amended: a Scenario-D input need not make the model infeasible: the
load equality can be met through variables outside the participant's
availability (asgD assigns a@x.com the unavailable slot 1); when the solver
does return INFEASIBLE, the run prints No solution found and exits 0. -/
theorem scenarioD_amended :
    satisfiesAll asgD (buildCons keysD [] 2 4 0 0 0 4) = true
    ∧ asgD "a@x.com" 1 = true
    ∧ ¬ (1 ∈ lookupD [("a@x.com", [0]), ("b@x.com", [0, 1, 2, 3])] "a@x.com")
    ∧ runScript ⟨true, hdrD, rowsD⟩ [] .INFEASIBLE asgD = (0, ["No solution found"]) :=
  ⟨by decide, rfl, by decide, rfl⟩

/-! ### C9 -/

/-- C9: when any Holiday or Special column is present, all_shifts exceeds the
number of real slot columns; no coverage constraint mentions a phantom index
(at or beyond W+H+S), yet every participant's load equality sums over all of
range(all_shifts); concretely, in the two-special-column model a@x.com meets
its overridden target of 2 with only one real-slot assignment, the other
being phantom slot 3. -/
theorem phantom_vars (keys : List String) (sc : List (String × SpecialCirc))
    (maxShifts W H S maxDummy : Nat) (hHS : 0 < H + S) :
    W + H + S < allShiftsOf W H S
    ∧ (∀ c ∈ coverageCons keys W H S, ∀ v ∈ c.vars, v.2 < W + H + S)
    ∧ (∀ e ∈ keys, ∃ c ∈ buildCons keys sc maxShifts W H S maxDummy (allShiftsOf W H S),
        c.cmp = Cmp.eq ∧ c.bound = targetOf sc maxShifts maxDummy e
        ∧ ∀ p, p < allShiftsOf W H S → (e, p) ∈ c.vars)
    ∧ (satisfiesAll asg9 (buildCons keys9 sc9 1 0 0 2 1 (allShiftsOf 0 0 2)) = true
       ∧ targetOf sc9 1 1 "a@x.com" = 2
       ∧ (List.range (0 + 0 + 2)).filter (fun i => asg9 "a@x.com" i) = [0]
       ∧ asg9 "a@x.com" 3 = true) := by
  refine ⟨by unfold allShiftsOf; omega, ?_, ?_, by decide, by decide, by decide, by decide⟩
  · intro c hc v hv
    simp only [coverageCons, List.mem_append] at hc
    rcases hc with (h1 | h2) | h3
    · obtain ⟨k, hk, rfl⟩ := by
        simpa only [List.mem_map, List.mem_range] using h1
      obtain ⟨e', _, rfl⟩ := by
        simpa only [List.mem_map] using hv
      simpa using by omega
    · by_cases hH : 0 < H
      · rw [if_pos hH] at h2
        obtain ⟨k, hk, rfl⟩ := by
          simpa only [List.mem_map, List.mem_range] using h2
        obtain ⟨e', _, rfl⟩ := by
          simpa only [List.mem_map] using hv
        simpa using by omega
      · rw [if_neg hH] at h2
        cases h2
    · by_cases hS : 0 < S
      · rw [if_pos hS] at h3
        obtain ⟨k, hk, rfl⟩ := by
          simpa only [List.mem_map, List.mem_range] using h3
        obtain ⟨e', _, rfl⟩ := by
          simpa only [List.mem_map] using hv
        simpa using by omega
      · rw [if_neg hS] at h3
        cases h3
  · intro e he
    refine ⟨⟨(List.range (allShiftsOf W H S)).map (fun i => (e, i)), Cmp.eq,
      targetOf sc maxShifts maxDummy e⟩, ?_, rfl, rfl, ?_⟩
    · refine mem_buildCons_of_load ?_
      simp only [loadCons, List.mem_map]
      exact ⟨e, he, rfl⟩
    · intro p hp
      simp only [List.mem_map, List.mem_range]
      exact ⟨p, hp, rfl⟩

/-- Witness for C9, instantiating the phantom-slot bound at the
two-special-column model. -/
theorem phantom_vars_witness : 0 + 0 + 2 < allShiftsOf 0 0 2 :=
  (phantom_vars keys9 sc9 1 0 0 2 1 (by decide)).1

/-! ### C8 -/

/-- C8: the run exits 1 exactly when the embedded body raises (file not
found, malformed ordering, or any other processing exception), and exits 0
otherwise; in particular an INFEASIBLE status is not an exception: the body
then succeeds printing exactly the No solution found message. -/
theorem exit_code_spec (inp : ScriptInput) (sc : List (String × SpecialCirc))
    (status : SolveStatus) (values : String → Nat → Bool) :
    ((runScript inp sc status values).1 = 1 ↔
      ∃ e, mainBody inp sc status values = .error e)
    ∧ ((runScript inp sc status values).1 = 0 ↔
      ∃ msgs, mainBody inp sc status values = .ok msgs)
    ∧ (inp.fileExists = false → (runScript inp sc status values).1 = 1)
    ∧ (∀ e, countShiftTypes inp.header = .error e →
        (runScript inp sc status values).1 = 1)
    ∧ (status = .INFEASIBLE → ∀ msgs, mainBody inp sc status values = .ok msgs →
        runScript inp sc status values = (0, msgs) ∧ msgs = ["No solution found"]) := by
  refine ⟨?_, ?_, ?_, ?_, ?_⟩
  · unfold runScript
    cases hm : mainBody inp sc status values with
    | ok msgs => simp [hm]
    | error e => simp [hm]
  · unfold runScript
    cases hm : mainBody inp sc status values with
    | ok msgs => simp [hm]
    | error e => simp [hm]
  · intro hfe
    simp [runScript, mainBody, validateFilePath, hfe]
  · intro e hce
    cases hfe : inp.fileExists with
    | false => simp [runScript, mainBody, validateFilePath, hfe]
    | true => simp [runScript, mainBody, validateFilePath, hfe, hce]
  · intro hst msgs hok
    subst hst
    refine ⟨by simp [runScript, hok], ?_⟩
    simp only [mainBody] at hok
    split at hok
    · exact Except.noConfusion hok
    · split at hok
      · exact Except.noConfusion hok
      · split at hok
        · exact Except.noConfusion hok
        · split at hok
          · exact Except.noConfusion hok
          · split at hok
            · exact Except.noConfusion hok
            · injection hok with h2
              exact h2.symm

/-- Witness for C8: a missing file exits 1; a well-formed input whose model
is INFEASIBLE exits 0 printing No solution found. -/
theorem exit_code_spec_witness :
    (runScript ⟨false, hdrD, rowsD⟩ [] .OPTIMAL asgD).1 = 1
    ∧ runScript ⟨true, hdrD, rowsD⟩ [] .INFEASIBLE asgD =
        (0, ["No solution found"]) :=
  ⟨(exit_code_spec ⟨false, hdrD, rowsD⟩ [] .OPTIMAL asgD).2.2.1 rfl,
   ((exit_code_spec ⟨true, hdrD, rowsD⟩ [] .INFEASIBLE asgD).2.2.2.2 rfl
      ["No solution found"] rfl).1⟩

/-! ### Fold invariants of count_shift_types -/

/-- The index of the first column of a kind, counting from absolute index i. -/
def firstKindIdx (k : ColKind) : Nat → List String → Option Nat
  | _, [] => none
  | i, n :: rest => if colKind n == k then some i else firstKindIdx k (i + 1) rest

/-- The index of the last column of a kind, counting from absolute index i. -/
def lastKindIdx (k : ColKind) : Nat → List String → Option Nat
  | _, [] => none
  | i, n :: rest =>
    match lastKindIdx k (i + 1) rest with
    | some j => some j
    | none => if colKind n == k then some i else none

/-- The loop counts each kind of column. -/
theorem countGo_counts (l : List String) : ∀ (i : Nat) (st : CountState),
    (countGo i l st).weekendCount
        = st.weekendCount + l.countP (fun n => colKind n == ColKind.weekend)
    ∧ (countGo i l st).holidayCount
        = st.holidayCount + l.countP (fun n => colKind n == ColKind.holiday)
    ∧ (countGo i l st).specialHolidayCount
        = st.specialHolidayCount + l.countP (fun n => colKind n == ColKind.special) := by
  induction l with
  | nil =>
    intro i st
    simp [countGo]
  | cons hd tl ih =>
    intro i st
    cases hk : colKind hd with
    | weekend =>
      simp only [countGo, hk]
      obtain ⟨h1, h2, h3⟩ := ih (i + 1)
        { st with weekendCount := st.weekendCount + 1, lastWeekendIndex := (i : Int) }
      rw [h1, h2, h3]
      simp [List.countP_cons, hk]
      omega
    | special =>
      simp only [countGo, hk]
      obtain ⟨h1, h2, h3⟩ := ih (i + 1)
        { st with specialHolidayCount := st.specialHolidayCount + 1,
                  firstSpecialIndex :=
                    if st.firstSpecialIndex == 0 then i else st.firstSpecialIndex }
      rw [h1, h2, h3]
      simp [List.countP_cons, hk]
      omega
    | holiday =>
      simp only [countGo, hk]
      obtain ⟨h1, h2, h3⟩ := ih (i + 1)
        { st with holidayCount := st.holidayCount + 1,
                  firstHolidayIndex :=
                    if st.firstHolidayIndex == 0 then i else st.firstHolidayIndex }
      rw [h1, h2, h3]
      simp [List.countP_cons, hk]
      omega
    | other =>
      simp only [countGo, hk]
      obtain ⟨h1, h2, h3⟩ := ih (i + 1) st
      rw [h1, h2, h3]
      simp [List.countP_cons, hk]

/-- The loop records the last weekend index, keeping the prior value when the
suffix holds no weekend column. -/
theorem countGo_lastWeekend (l : List String) : ∀ (i : Nat) (st : CountState),
    (countGo i l st).lastWeekendIndex =
      (match lastKindIdx ColKind.weekend i l with
       | some j => (j : Int)
       | none => st.lastWeekendIndex) := by
  induction l with
  | nil =>
    intro i st
    simp [countGo, lastKindIdx]
  | cons hd tl ih =>
    intro i st
    cases hk : colKind hd with
    | weekend =>
      simp only [countGo, hk, lastKindIdx]
      rw [ih (i + 1) _]
      cases hl : lastKindIdx ColKind.weekend (i + 1) tl with
      | none => simp [hl, hk]
      | some j => simp [hl]
    | special =>
      simp only [countGo, hk, lastKindIdx]
      rw [ih (i + 1) _]
      cases hl : lastKindIdx ColKind.weekend (i + 1) tl with
      | none => simp [hl, hk]
      | some j => simp [hl]
    | holiday =>
      simp only [countGo, hk, lastKindIdx]
      rw [ih (i + 1) _]
      cases hl : lastKindIdx ColKind.weekend (i + 1) tl with
      | none => simp [hl, hk]
      | some j => simp [hl]
    | other =>
      simp only [countGo, hk, lastKindIdx]
      rw [ih (i + 1) st]
      cases hl : lastKindIdx ColKind.weekend (i + 1) tl with
      | none => simp [hl, hk]
      | some j => simp [hl]

/-- A nonzero first-holiday record is never overwritten. -/
theorem countGo_firstHoliday_stable (l : List String) : ∀ (i : Nat) (st : CountState),
    st.firstHolidayIndex ≠ 0 →
    (countGo i l st).firstHolidayIndex = st.firstHolidayIndex := by
  induction l with
  | nil =>
    intro i st _
    simp [countGo]
  | cons hd tl ih =>
    intro i st h0
    cases hk : colKind hd with
    | weekend => simp only [countGo, hk]; exact ih (i + 1) _ h0
    | special => simp only [countGo, hk]; exact ih (i + 1) _ h0
    | holiday =>
      simp only [countGo, hk]
      have hb : (st.firstHolidayIndex == 0) = false := by
        simpa using h0
      rw [hb]
      exact ih (i + 1) _ h0
    | other => simp only [countGo, hk]; exact ih (i + 1) st h0

/-- A nonzero first-special record is never overwritten. -/
theorem countGo_firstSpecial_stable (l : List String) : ∀ (i : Nat) (st : CountState),
    st.firstSpecialIndex ≠ 0 →
    (countGo i l st).firstSpecialIndex = st.firstSpecialIndex := by
  induction l with
  | nil =>
    intro i st _
    simp [countGo]
  | cons hd tl ih =>
    intro i st h0
    cases hk : colKind hd with
    | weekend => simp only [countGo, hk]; exact ih (i + 1) _ h0
    | holiday => simp only [countGo, hk]; exact ih (i + 1) _ h0
    | special =>
      simp only [countGo, hk]
      have hb : (st.firstSpecialIndex == 0) = false := by
        simpa using h0
      rw [hb]
      exact ih (i + 1) _ h0
    | other => simp only [countGo, hk]; exact ih (i + 1) st h0

/-- While the record is still 0, the loop stores the first holiday index —
provided that index is not itself 0 (the source's sentinel weakness). -/
theorem countGo_firstHoliday (l : List String) : ∀ (i : Nat) (st : CountState),
    st.firstHolidayIndex = 0 →
    firstKindIdx ColKind.holiday i l ≠ some 0 →
    (countGo i l st).firstHolidayIndex = (firstKindIdx ColKind.holiday i l).getD 0 := by
  induction l with
  | nil =>
    intro i st h0 _
    simp [countGo, firstKindIdx, h0]
  | cons hd tl ih =>
    intro i st h0 hns
    cases hk : colKind hd with
    | holiday =>
      have hfk : firstKindIdx ColKind.holiday i (hd :: tl) = some i := by
        simp [firstKindIdx, hk]
      have hi : i ≠ 0 := by
        intro hi0
        exact hns (by rw [hfk, hi0])
      simp only [countGo, hk]
      rw [hfk]
      have hst : (if st.firstHolidayIndex == 0 then i else st.firstHolidayIndex) = i := by
        simp [h0]
      rw [hst, countGo_firstHoliday_stable tl (i + 1) _ hi]
      rfl
    | weekend =>
      have hfk : firstKindIdx ColKind.holiday i (hd :: tl)
          = firstKindIdx ColKind.holiday (i + 1) tl := by
        simp [firstKindIdx, hk]
      simp only [countGo, hk]
      rw [hfk]
      exact ih (i + 1) _ h0 (hfk ▸ hns)
    | special =>
      have hfk : firstKindIdx ColKind.holiday i (hd :: tl)
          = firstKindIdx ColKind.holiday (i + 1) tl := by
        simp [firstKindIdx, hk]
      simp only [countGo, hk]
      rw [hfk]
      exact ih (i + 1) _ h0 (hfk ▸ hns)
    | other =>
      have hfk : firstKindIdx ColKind.holiday i (hd :: tl)
          = firstKindIdx ColKind.holiday (i + 1) tl := by
        simp [firstKindIdx, hk]
      simp only [countGo, hk]
      rw [hfk]
      exact ih (i + 1) st h0 (hfk ▸ hns)

/-- While the record is still 0, the loop stores the first special index —
provided that index is not itself 0. -/
theorem countGo_firstSpecial (l : List String) : ∀ (i : Nat) (st : CountState),
    st.firstSpecialIndex = 0 →
    firstKindIdx ColKind.special i l ≠ some 0 →
    (countGo i l st).firstSpecialIndex = (firstKindIdx ColKind.special i l).getD 0 := by
  induction l with
  | nil =>
    intro i st h0 _
    simp [countGo, firstKindIdx, h0]
  | cons hd tl ih =>
    intro i st h0 hns
    cases hk : colKind hd with
    | special =>
      have hfk : firstKindIdx ColKind.special i (hd :: tl) = some i := by
        simp [firstKindIdx, hk]
      have hi : i ≠ 0 := by
        intro hi0
        exact hns (by rw [hfk, hi0])
      simp only [countGo, hk]
      rw [hfk]
      have hst : (if st.firstSpecialIndex == 0 then i else st.firstSpecialIndex) = i := by
        simp [h0]
      rw [hst, countGo_firstSpecial_stable tl (i + 1) _ hi]
      rfl
    | weekend =>
      have hfk : firstKindIdx ColKind.special i (hd :: tl)
          = firstKindIdx ColKind.special (i + 1) tl := by
        simp [firstKindIdx, hk]
      simp only [countGo, hk]
      rw [hfk]
      exact ih (i + 1) _ h0 (hfk ▸ hns)
    | holiday =>
      have hfk : firstKindIdx ColKind.special i (hd :: tl)
          = firstKindIdx ColKind.special (i + 1) tl := by
        simp [firstKindIdx, hk]
      simp only [countGo, hk]
      rw [hfk]
      exact ih (i + 1) _ h0 (hfk ▸ hns)
    | other =>
      have hfk : firstKindIdx ColKind.special i (hd :: tl)
          = firstKindIdx ColKind.special (i + 1) tl := by
        simp [firstKindIdx, hk]
      simp only [countGo, hk]
      rw [hfk]
      exact ih (i + 1) st h0 (hfk ▸ hns)

/-- A recorded first index points at a column of the kind. -/
theorem firstKindIdx_spec (k : ColKind) (l : List String) : ∀ i m,
    firstKindIdx k i l = some m →
    ∃ p c, m = i + p ∧ l.get? p = some c ∧ colKind c = k := by
  induction l with
  | nil =>
    intro i m h
    simp [firstKindIdx] at h
  | cons hd tl ih =>
    intro i m h
    simp only [firstKindIdx] at h
    by_cases hk : (colKind hd == k) = true
    · rw [if_pos hk] at h
      injection h with h2
      exact ⟨0, hd, by omega, rfl, by simpa using hk⟩
    · rw [if_neg hk] at h
      obtain ⟨p, c, hm, hg, hc⟩ := ih (i + 1) m h
      exact ⟨p + 1, c, by omega, by simpa using hg, hc⟩

/-- Any column of the kind bounds the recorded first index from above. -/
theorem firstKindIdx_of_get (k : ColKind) (l : List String) : ∀ i p c,
    l.get? p = some c → colKind c = k →
    ∃ m, firstKindIdx k i l = some m ∧ m ≤ i + p := by
  induction l with
  | nil =>
    intro i p c hg _
    simp at hg
  | cons hd tl ih =>
    intro i p c hg hc
    simp only [firstKindIdx]
    by_cases hk : (colKind hd == k) = true
    · exact ⟨i, by rw [if_pos hk], by omega⟩
    · rw [if_neg hk]
      cases p with
      | zero =>
        have hhd : hd = c := by simpa using hg
        subst hhd
        exact absurd (by simpa using hc) hk
      | succ p =>
        obtain ⟨m, hm, hle⟩ := ih (i + 1) p c (by simpa using hg) hc
        exact ⟨m, hm, by omega⟩

/-- A recorded last index points at a column of the kind. -/
theorem lastKindIdx_spec (k : ColKind) (l : List String) : ∀ i M,
    lastKindIdx k i l = some M →
    ∃ p c, M = i + p ∧ l.get? p = some c ∧ colKind c = k := by
  induction l with
  | nil =>
    intro i M h
    simp [lastKindIdx] at h
  | cons hd tl ih =>
    intro i M h
    simp only [lastKindIdx] at h
    cases hl : lastKindIdx k (i + 1) tl with
    | some j =>
      rw [hl] at h
      injection h with h2
      subst h2
      obtain ⟨p, c, hm, hg, hc⟩ := ih (i + 1) j hl
      exact ⟨p + 1, c, by omega, by simpa using hg, hc⟩
    | none =>
      rw [hl] at h
      by_cases hk : (colKind hd == k) = true
      · rw [if_pos hk] at h
        injection h with h2
        exact ⟨0, hd, by omega, rfl, by simpa using hk⟩
      · rw [if_neg hk] at h
        exact Option.noConfusion h

/-- Any column of the kind bounds the recorded last index from below. -/
theorem lastKindIdx_ge (k : ColKind) (l : List String) : ∀ i p c,
    l.get? p = some c → colKind c = k →
    ∃ M, lastKindIdx k i l = some M ∧ i + p ≤ M := by
  induction l with
  | nil =>
    intro i p c hg _
    simp at hg
  | cons hd tl ih =>
    intro i p c hg hc
    simp only [lastKindIdx]
    cases p with
    | zero =>
      have hhd : hd = c := by simpa using hg
      subst hhd
      cases hl : lastKindIdx k (i + 1) tl with
      | some j =>
        obtain ⟨p', c', hm, _, _⟩ := lastKindIdx_spec k tl (i + 1) j hl
        exact ⟨j, rfl, by omega⟩
      | none =>
        refine ⟨i, ?_, by omega⟩
        rw [if_pos (by simpa using hc)]
    | succ p =>
      obtain ⟨M, hM, hle⟩ := ih (i + 1) p c (by simpa using hg) hc
      rw [hM]
      exact ⟨M, rfl, by omega⟩

/-- A kind's count is positive exactly when some column of that kind exists. -/
theorem countP_pos_iff_kind (k : ColKind) (l : List String) :
    0 < l.countP (fun n => colKind n == k) ↔
      ∃ p c, l.get? p = some c ∧ colKind c = k := by
  rw [List.countP_pos_iff]
  constructor
  · rintro ⟨a, ha, hpa⟩
    obtain ⟨n, hn⟩ := List.mem_iff_get?.mp ha
    exact ⟨n, a, hn, by simpa using hpa⟩
  · rintro ⟨p, c, hg, hc⟩
    exact ⟨c, List.mem_iff_get?.mpr ⟨p, hg⟩, by simp [hc]⟩

/-- When no column of the kind sits at absolute index 0, the recorded first
index is never the sentinel value 0. -/
theorem firstKindIdx_ne_zero (k : ColKind) (header : List String)
    (hhead : ∀ c, header.get? 0 = some c → colKind c ≠ k) :
    firstKindIdx k 0 header ≠ some 0 := by
  intro hcon
  obtain ⟨p0, c0, hp0, hg0, hc0⟩ := firstKindIdx_spec k header 0 0 hcon
  have hz : p0 = 0 := by omega
  subst hz
  exact hhead c0 hg0 hc0

/-- count_shift_types raises exactly when one of its two recorded-index
comparisons fires. -/
theorem countShiftTypes_error_cond (header : List String) :
    (∃ e, countShiftTypes header = .error e) ↔
      ((0 < (countGo 0 header initCountState).holidayCount
          ∧ ((countGo 0 header initCountState).firstHolidayIndex : Int)
              < (countGo 0 header initCountState).lastWeekendIndex)
       ∨ (0 < (countGo 0 header initCountState).specialHolidayCount
          ∧ ((countGo 0 header initCountState).firstSpecialIndex : Int)
              < (countGo 0 header initCountState).lastWeekendIndex)) := by
  constructor
  · rintro ⟨e, he⟩
    simp only [countShiftTypes] at he
    by_cases hc1 : (countGo 0 header initCountState).holidayCount > 0
        ∧ ((countGo 0 header initCountState).firstHolidayIndex : Int)
            < (countGo 0 header initCountState).lastWeekendIndex
    · exact Or.inl hc1
    · rw [if_neg hc1] at he
      by_cases hc2 : (countGo 0 header initCountState).specialHolidayCount > 0
          ∧ ((countGo 0 header initCountState).firstSpecialIndex : Int)
              < (countGo 0 header initCountState).lastWeekendIndex
      · exact Or.inr hc2
      · rw [if_neg hc2] at he
        exact Except.noConfusion he
  · intro h
    simp only [countShiftTypes]
    by_cases hc1 : (countGo 0 header initCountState).holidayCount > 0
        ∧ ((countGo 0 header initCountState).firstHolidayIndex : Int)
            < (countGo 0 header initCountState).lastWeekendIndex
    · rw [if_pos hc1]
      exact ⟨_, rfl⟩
    · rw [if_neg hc1]
      rcases h with h | h
      · exact absurd h hc1
      · rw [if_pos h]
        exact ⟨_, rfl⟩

/-! ### C7 -/

/-- C7 counterexample: a header whose Special column (index 3) precedes its
Holiday column (index 4) violates the claimed ordering Weekend before Holiday
before Special, yet count_shift_types accepts it without error — the relative
order of Holiday and Special columns is never checked. -/
theorem ordering_cx :
    countShiftTypes ["T", "E", "Weekend[a", "Special[s", "Holiday[h"] = .ok (1, 1, 1)
    ∧ colKind "Special[s" = ColKind.special
    ∧ colKind "Holiday[h" = ColKind.holiday
    ∧ colKind "Weekend[a" = ColKind.weekend :=
  ⟨rfl, rfl, rfl, rfl⟩

/-- C7 amended: provided no Holiday- or Special-kind column sits at absolute
index 0 (where the source's 0-as-unset sentinel misbehaves),
count_shift_types raises a structural-ordering error if and only if some
Holiday- or Special-kind column precedes some Weekend-kind column; the
relative order of Holiday versus Special columns is not checked. -/
theorem ordering_error_iff (header : List String)
    (hhead : ∀ c, header.get? 0 = some c →
      colKind c ≠ ColKind.holiday ∧ colKind c ≠ ColKind.special) :
    (∃ e, countShiftTypes header = .error e) ↔
      ∃ i j ci cj, i < j ∧ header.get? i = some ci
        ∧ (colKind ci = ColKind.holiday ∨ colKind ci = ColKind.special)
        ∧ header.get? j = some cj ∧ colKind cj = ColKind.weekend := by
  rw [countShiftTypes_error_cond]
  have hnsH := firstKindIdx_ne_zero ColKind.holiday header
    (fun c hc => (hhead c hc).1)
  have hnsS := firstKindIdx_ne_zero ColKind.special header
    (fun c hc => (hhead c hc).2)
  have hfh := countGo_firstHoliday header 0 initCountState rfl hnsH
  have hfs := countGo_firstSpecial header 0 initCountState rfl hnsS
  have hlw := countGo_lastWeekend header 0 initCountState
  have hcH := (countGo_counts header 0 initCountState).2.1
  have hcS := (countGo_counts header 0 initCountState).2.2
  constructor
  · rintro (⟨hpos, hlt⟩ | ⟨hpos, hlt⟩)
    · rw [hcH] at hpos
      simp only [initCountState, Nat.zero_add] at hpos
      obtain ⟨p, c, hg, hc⟩ := (countP_pos_iff_kind ColKind.holiday header).mp hpos
      obtain ⟨m, hm, _⟩ := firstKindIdx_of_get ColKind.holiday header 0 p c hg hc
      rw [hm, Option.getD_some] at hfh
      cases hlk : lastKindIdx ColKind.weekend 0 header with
      | none =>
        have hlw2 : (countGo 0 header initCountState).lastWeekendIndex = (-1 : Int) := by
          rw [hlw, hlk]
          rfl
        rw [hfh, hlw2] at hlt
        omega
      | some M =>
        have hlw2 : (countGo 0 header initCountState).lastWeekendIndex = (M : Int) := by
          rw [hlw, hlk]
        rw [hfh, hlw2] at hlt
        obtain ⟨pm, cm, hmeq, hgm, hcm⟩ := firstKindIdx_spec ColKind.holiday header 0 m hm
        obtain ⟨pM, cM, hMeq, hgM, hcM⟩ := lastKindIdx_spec ColKind.weekend header 0 M hlk
        have hpm : pm = m := by omega
        have hpM : pM = M := by omega
        subst hpm
        subst hpM
        exact ⟨pm, pM, cm, cM, by omega, hgm, Or.inl hcm, hgM, hcM⟩
    · rw [hcS] at hpos
      simp only [initCountState, Nat.zero_add] at hpos
      obtain ⟨p, c, hg, hc⟩ := (countP_pos_iff_kind ColKind.special header).mp hpos
      obtain ⟨m, hm, _⟩ := firstKindIdx_of_get ColKind.special header 0 p c hg hc
      rw [hm, Option.getD_some] at hfs
      cases hlk : lastKindIdx ColKind.weekend 0 header with
      | none =>
        have hlw2 : (countGo 0 header initCountState).lastWeekendIndex = (-1 : Int) := by
          rw [hlw, hlk]
          rfl
        rw [hfs, hlw2] at hlt
        omega
      | some M =>
        have hlw2 : (countGo 0 header initCountState).lastWeekendIndex = (M : Int) := by
          rw [hlw, hlk]
        rw [hfs, hlw2] at hlt
        obtain ⟨pm, cm, hmeq, hgm, hcm⟩ := firstKindIdx_spec ColKind.special header 0 m hm
        obtain ⟨pM, cM, hMeq, hgM, hcM⟩ := lastKindIdx_spec ColKind.weekend header 0 M hlk
        have hpm : pm = m := by omega
        have hpM : pM = M := by omega
        subst hpm
        subst hpM
        exact ⟨pm, pM, cm, cM, by omega, hgm, Or.inr hcm, hgM, hcM⟩
  · rintro ⟨i, j, ci, cj, hij, hgi, hki, hgj, hkj⟩
    obtain ⟨M, hM, hMj⟩ := lastKindIdx_ge ColKind.weekend header 0 j cj hgj hkj
    have hlw2 : (countGo 0 header initCountState).lastWeekendIndex = (M : Int) := by
      rw [hlw, hM]
    rcases hki with hki | hki
    · obtain ⟨m, hm, hmi⟩ := firstKindIdx_of_get ColKind.holiday header 0 i ci hgi hki
      rw [hm, Option.getD_some] at hfh
      left
      constructor
      · rw [hcH]
        simp only [initCountState, Nat.zero_add]
        exact (countP_pos_iff_kind ColKind.holiday header).mpr ⟨i, ci, hgi, hki⟩
      · rw [hfh, hlw2]
        omega
    · obtain ⟨m, hm, hmi⟩ := firstKindIdx_of_get ColKind.special header 0 i ci hgi hki
      rw [hm, Option.getD_some] at hfs
      right
      constructor
      · rw [hcS]
        simp only [initCountState, Nat.zero_add]
        exact (countP_pos_iff_kind ColKind.special header).mpr ⟨i, ci, hgi, hki⟩
      · rw [hfs, hlw2]
        omega

/-- Witness for the amended C7: a Holiday column before the Weekend column is
rejected, as the characterization predicts. -/
theorem ordering_error_iff_witness :
    ∃ e, countShiftTypes ["T", "E", "Holiday[h", "Weekend[a"] = .error e :=
  (ordering_error_iff ["T", "E", "Holiday[h", "Weekend[a"]
      (by
        intro c hc
        simp only [List.get?] at hc
        injection hc with hc2
        subst hc2
        exact ⟨by decide, by decide⟩)).mpr
    ⟨2, 3, "Holiday[h", "Weekend[a", by omega, rfl, Or.inl rfl, rfl, rfl⟩

/-! ### Dict lemmas for the availability tables -/

/-- Keys after a setdefault-append: the old keys plus possibly the new one. -/
theorem mem_keys_dictAppend (d : AvMap) (k : String) (v : Nat) (e : String) :
    e ∈ (dictAppend d k v).map Prod.fst ↔ e ∈ d.map Prod.fst ∨ e = k := by
  induction d with
  | nil => simp [dictAppend]
  | cons hd tl ih =>
    obtain ⟨k', vs⟩ := hd
    simp only [dictAppend]
    by_cases hk : (k' == k) = true
    · rw [if_pos hk]
      have hkk : k' = k := eq_of_beq hk
      subst hkk
      simp only [List.map_cons, List.mem_cons]
      tauto
    · rw [if_neg hk]
      simp only [List.map_cons, List.mem_cons, ih]
      tauto

/-- A setdefault-append appends the value to the key's list. -/
theorem lookupD_dictAppend_self (d : AvMap) (k : String) (v : Nat) :
    lookupD (dictAppend d k v) k = lookupD d k ++ [v] := by
  induction d with
  | nil => simp [dictAppend, lookupD]
  | cons hd tl ih =>
    obtain ⟨k', vs⟩ := hd
    simp only [dictAppend]
    by_cases hk : (k' == k) = true
    · rw [if_pos hk]
      simp [lookupD, hk]
    · rw [if_neg hk]
      simp [lookupD, hk, ih]

/-- dict.get of an absent key defaults to the empty list. -/
theorem lookupD_eq_nil_of_not_mem (d : AvMap) (e : String)
    (h : ¬ e ∈ d.map Prod.fst) : lookupD d e = [] := by
  induction d with
  | nil => rfl
  | cons hd tl ih =>
    obtain ⟨k', vs⟩ := hd
    simp only [lookupD]
    by_cases hk : (k' == e) = true
    · exact absurd (by simp [eq_of_beq hk]) h
    · rw [if_neg hk]
      apply ih
      intro hmem
      exact h (by simp [hmem])

/-- A key with a nonempty list is present. -/
theorem mem_keys_of_lookupD_ne (d : AvMap) (e : String) (h : lookupD d e ≠ []) :
    e ∈ d.map Prod.fst := by
  by_contra hc
  exact h (lookupD_eq_nil_of_not_mem d e hc)

/-- The dummy loop appends exactly the slot offsets 0..n-1. -/
theorem lookupD_addDummy (av : AvMap) : ∀ n : Nat,
    lookupD (addDummy n av) DUMMY_EMAIL = lookupD av DUMMY_EMAIL ++ List.range n := by
  intro n
  induction n with
  | zero => simp [addDummy]
  | succ n ih =>
    have hstep : addDummy (n + 1) av = dictAppend (addDummy n av) DUMMY_EMAIL n := by
      simp [addDummy, List.range_succ]
    rw [hstep, lookupD_dictAppend_self, ih, List.range_succ, List.append_assoc]

/-- The dummy key exists after a nonempty dummy loop. -/
theorem dummy_mem_addDummy (av : AvMap) (n : Nat) (hn : 0 < n) :
    DUMMY_EMAIL ∈ (addDummy n av).map Prod.fst := by
  apply mem_keys_of_lookupD_ne
  rw [lookupD_addDummy]
  simp [List.range_eq_nil]
  omega

/-- The cell loop only ever adds the row's own email as a key. -/
theorem processCells_keys (email : String) (row : List String) : ∀ cols m m',
    processCells email row cols m = .ok m' →
    ∀ e, e ∈ m'.1.map Prod.fst → e ∈ m.1.map Prod.fst ∨ e = email := by
  intro cols
  induction cols with
  | nil =>
    intro m m' h e he
    simp only [processCells] at h
    injection h with h2
    subst h2
    exact Or.inl he
  | cons k rest ih =>
    intro m m' h e he
    simp only [processCells] at h
    cases hg : row.get? (k + 2) with
    | none =>
      rw [hg] at h
      exact Except.noConfusion h
    | some cell =>
      simp only [hg] at h
      by_cases hme : (cell == "Meh") = true
      · rw [if_pos hme] at h
        rcases ih _ m' h e he with h1 | h1
        · rcases (mem_keys_dictAppend m.1 email k e).mp h1 with h2 | h2
          · exact Or.inl h2
          · exact Or.inr h2
        · exact Or.inr h1
      · rw [if_neg hme] at h
        by_cases hpf : (cell == "Preferred") = true
        · rw [if_pos hpf] at h
          rcases ih _ m' h e he with h1 | h1
          · rcases (mem_keys_dictAppend m.1 email k e).mp h1 with h2 | h2
            · exact Or.inl h2
            · exact Or.inr h2
          · exact Or.inr h1
        · rw [if_neg hpf] at h
          exact ih m m' h e he

/-- A processed row adds at most its own email as an availability key. -/
theorem processRow_keys (header : List String) (m : AvMap × AvMap)
    (row : List String) (m' : AvMap × AvMap)
    (h : processRow header m row = .ok m') (e : String)
    (he : e ∈ m'.1.map Prod.fst) :
    e ∈ m.1.map Prod.fst ∨ row.get? 1 = some e := by
  simp only [processRow] at h
  cases hg : row.get? 1 with
  | none =>
    rw [hg] at h
    exact Except.noConfusion h
  | some email =>
    rw [hg] at h
    rcases processCells_keys email row _ m m' h e he with h1 | h1
    · exact Or.inl h1
    · exact Or.inr (by rw [h1])

/-- No row loop introduces the dummy key when no row holds the dummy email. -/
theorem foldRows_no_dummy (header : List String) : ∀ rows m m',
    foldRows header m rows = .ok m' →
    (∀ r ∈ rows, r.get? 1 ≠ some DUMMY_EMAIL) →
    ¬ DUMMY_EMAIL ∈ m.1.map Prod.fst →
    ¬ DUMMY_EMAIL ∈ m'.1.map Prod.fst := by
  intro rows
  induction rows with
  | nil =>
    intro m m' h _ hm
    simp only [foldRows] at h
    injection h with h2
    subst h2
    exact hm
  | cons row rest ih =>
    intro m m' h hr hm
    simp only [foldRows] at h
    cases hp : processRow header m row with
    | error e =>
      rw [hp] at h
      exact Except.noConfusion h
    | ok m2 =>
      rw [hp] at h
      refine ih m2 m' h (fun r hrr => hr r (List.mem_cons_of_mem _ hrr)) ?_
      intro hmem
      rcases processRow_keys header m row m2 hp DUMMY_EMAIL hmem with h1 | h1
      · exact hm h1
      · exact hr row (List.mem_cons_self _ _) h1

/-- The occupancy sum splits over the three kind counts. -/
theorem totalOccupancy_eq (l : List String) :
    totalOccupancy l = l.countP (fun n => colKind n == ColKind.weekend)
      + l.countP (fun n => colKind n == ColKind.holiday) * 2
      + l.countP (fun n => colKind n == ColKind.special) * 2 := by
  induction l with
  | nil => rfl
  | cons hd tl ih =>
    simp only [totalOccupancy, List.map_cons, List.sum_cons]
    simp only [totalOccupancy] at ih
    rw [ih]
    cases hk : colKind hd <;> simp [List.countP_cons, hk] <;> omega

/-- A successful classification returns the three kind counts. -/
theorem countShiftTypes_ok (header : List String) (W H S : Nat)
    (h : countShiftTypes header = .ok (W, H, S)) :
    W = header.countP (fun n => colKind n == ColKind.weekend)
    ∧ H = header.countP (fun n => colKind n == ColKind.holiday)
    ∧ S = header.countP (fun n => colKind n == ColKind.special) := by
  simp only [countShiftTypes] at h
  obtain ⟨h1, h2, h3⟩ := countGo_counts header 0 initCountState
  split at h
  · exact Except.noConfusion h
  · split at h
    · exact Except.noConfusion h
    · injection h with h4
      injection h4 with hW h5
      injection h5 with hH hS
      refine ⟨?_, ?_, ?_⟩
      · rw [← hW, h1]
        simp [initCountState]
      · rw [← hH, h2]
        simp [initCountState]
      · rw [← hS, h3]
        simp [initCountState]

/-! ### C6 -/

/-- C6: all_shifts equals the total required occupancy over the header's
columns; the per-participant target and remainder are that total divided by
and reduced modulo the row count; and (for a header with slot columns and no
sign-up row using the dummy email) the single filler participant exists in
the availability table exactly when the remainder is nonzero, with every
slot offset available to it. -/
theorem capacity_planner (header : List String) (rows : List (List String))
    (W H S : Nat) (av pf : AvMap)
    (hc : countShiftTypes header = .ok (W, H, S))
    (hdr2 : 2 < header.length)
    (hrow : ∀ r ∈ rows, r.get? 1 ≠ some DUMMY_EMAIL)
    (hcol : collectAvailability header rows (allShiftsOf W H S % rows.length != 0)
      = .ok (av, pf)) :
    allShiftsOf W H S = totalOccupancy header
    ∧ allShiftsOf W H S / rows.length = totalOccupancy header / rows.length
    ∧ allShiftsOf W H S % rows.length = totalOccupancy header % rows.length
    ∧ (DUMMY_EMAIL ∈ av.map Prod.fst ↔ allShiftsOf W H S % rows.length ≠ 0)
    ∧ (allShiftsOf W H S % rows.length ≠ 0 →
        lookupD av DUMMY_EMAIL = List.range (header.length - 2)) := by
  obtain ⟨hW, hH, hS⟩ := countShiftTypes_ok header W H S hc
  have htot : allShiftsOf W H S = totalOccupancy header := by
    rw [totalOccupancy_eq, ← hW, ← hH, ← hS]
    rfl
  simp only [collectAvailability] at hcol
  cases hf : foldRows header ([], []) rows with
  | error e =>
    simp only [hf] at hcol
    exact Except.noConfusion hcol
  | ok m =>
    obtain ⟨mav, mpf⟩ := m
    simp only [hf] at hcol
    have hnod : ¬ DUMMY_EMAIL ∈ mav.map Prod.fst :=
      foldRows_no_dummy header rows ([], []) (mav, mpf) hf hrow (by simp)
    by_cases hflag : (allShiftsOf W H S % rows.length != 0) = true
    · rw [if_pos hflag] at hcol
      injection hcol with h4
      injection h4 with hav hpf2
      have hrem : allShiftsOf W H S % rows.length ≠ 0 := by simpa using hflag
      have hn2 : 0 < header.length - 2 := by omega
      refine ⟨htot, by rw [htot], by rw [htot], ?_, ?_⟩
      · constructor
        · intro _
          exact hrem
        · intro _
          rw [← hav]
          exact dummy_mem_addDummy mav _ hn2
      · intro _
        rw [← hav, lookupD_addDummy, lookupD_eq_nil_of_not_mem mav _ hnod]
        simp
    · rw [if_neg hflag] at hcol
      injection hcol with h4
      injection h4 with hav hpf2
      have hrem : allShiftsOf W H S % rows.length = 0 := by simpa using hflag
      refine ⟨htot, by rw [htot], by rw [htot], ?_, ?_⟩
      · constructor
        · intro hmem
          rw [← hav] at hmem
          exact absurd hmem hnod
        · intro h
          exact absurd hrem h
      · intro h
        exact absurd hrem h

/-- Header of the Scenario-C-shaped witness run: 3 weekend and 2 holiday
columns, total occupancy 7. -/
def hdr6 : List String :=
  ["T", "E", "Weekend[a ", "Weekend[b ", "Weekend[c ", "Holiday[h1 ", "Holiday[h2 "]

/-- Three sign-up rows, every slot available. -/
def rows6 : List (List String) :=
  [["t", "a@x.com", "Meh", "Meh", "Meh", "Meh", "Meh"],
   ["t", "b@x.com", "Meh", "Meh", "Meh", "Meh", "Meh"],
   ["t", "c@x.com", "Meh", "Meh", "Meh", "Meh", "Meh"]]

/-- The availability table collected from rows6 (remainder 1, so the filler
is appended with every slot offset). -/
def av6 : AvMap :=
  [("a@x.com", [0, 1, 2, 3, 4]),
   ("b@x.com", [0, 1, 2, 3, 4]),
   ("c@x.com", [0, 1, 2, 3, 4]),
   (DUMMY_EMAIL, [0, 1, 2, 3, 4])]

/-- Witness for C6: total occupancy 7 over 3 participants gives target 2 and
remainder 1, and the filler participant is present with full availability. -/
theorem capacity_planner_witness :
    allShiftsOf 3 2 0 = 7
    ∧ allShiftsOf 3 2 0 / rows6.length = 2
    ∧ allShiftsOf 3 2 0 % rows6.length = 1
    ∧ (DUMMY_EMAIL ∈ av6.map Prod.fst ↔ allShiftsOf 3 2 0 % rows6.length ≠ 0)
    ∧ lookupD av6 DUMMY_EMAIL = List.range (hdr6.length - 2) :=
  ⟨rfl, rfl, rfl,
   (capacity_planner hdr6 rows6 3 2 0 av6 [] rfl (by decide) (by decide) rfl).2.2.2.1,
   (capacity_planner hdr6 rows6 3 2 0 av6 [] rfl (by decide) (by decide) rfl).2.2.2.2
     (by decide)⟩

end WeekendSolver
